import Mathlib

/-
Verification development for the auto-pdf-signer program.

The program (src/auto-pdf-signer.py) fills PDF form fields from a key=value
entity file, places a signature image, fills definition placeholders, and
flattens the document.  We embed its pure decision logic shallowly:

  * rectangles carry rational coordinates (the source works on float page
    coordinates; only +, -, *, /2 and comparisons occur, so exact
    rational arithmetic embeds them);
  * a page is modelled by its text-search behaviour: the source only ever
    consults a page through search_for (optionally clipped), its widget
    list and its bounding rectangle, so a page is a record of those;
  * document mutation (insert_text / insert_image) is recorded as a list of
    fill actions instead of performed, which is what the claims are about.
-/

namespace AutoPdfSigner

/-- Exact rational coordinate, an unnormalized fraction of integers with a
positive denominator.  The source computes on float page coordinates with
nothing but addition, subtraction, multiplication and halving, so exact
rational arithmetic embeds it; keeping fractions unnormalized makes every
operation plain integer arithmetic that the kernel evaluates. -/
structure Coord where
  num : Int
  den : Int
deriving DecidableEq, Repr

instance : OfNat Coord n := ⟨⟨n, 1⟩⟩

instance : Add Coord := ⟨fun a b => ⟨a.num * b.den + b.num * a.den, a.den * b.den⟩⟩

instance : Sub Coord := ⟨fun a b => ⟨a.num * b.den - b.num * a.den, a.den * b.den⟩⟩

instance : Mul Coord := ⟨fun a b => ⟨a.num * b.num, a.den * b.den⟩⟩

/-- Exact division, used by the source only to halve a sum. -/
instance : Div Coord := ⟨fun a b => ⟨a.num * b.den, a.den * b.num⟩⟩

/-- Strict order on coordinates (denominators positive): cross multiply. -/
def Coord.ltb (a b : Coord) : Bool := a.num * b.den < b.num * a.den

/-- Python max on two coordinates. -/
def Coord.maxc (a b : Coord) : Coord := if a.ltb b then b else a

/-- Python min on two coordinates. -/
def Coord.minc (a b : Coord) : Coord := if b.ltb a then b else a

/-- A natural number as a coordinate (for string lengths). -/
def Coord.ofNat (n : Nat) : Coord := ⟨n, 1⟩

/-- Axis-aligned rectangle, fitz.Rect with rational coordinates. -/
structure Rect where
  x0 : Coord
  y0 : Coord
  x1 : Coord
  y1 : Coord
deriving DecidableEq, Repr

/-- Height of a page rectangle, fitz Rect.height. -/
def Rect.height (r : Rect) : Coord := r.y1 - r.y0

/-- Embedding of fitz Rect.intersects: the common rectangle is non-empty,
with emptiness meaning zero or negative width or height. -/
def Rect.intersects (a b : Rect) : Bool :=
  (Coord.maxc a.x0 b.x0).ltb (Coord.minc a.x1 b.x1) &&
  (Coord.maxc a.y0 b.y0).ltb (Coord.minc a.y1 b.y1)

/-- Form widget type, the subset of fitz widget types the source inspects. -/
inductive WidgetType where
  | text
  | signature
  | other
deriving DecidableEq, Repr

/-- A form widget: field name and type (the two attributes the source reads
before writing a value). -/
structure Widget where
  fieldName : String
  fieldType : WidgetType
deriving Repr

/-- A page, modelled by the operations the source performs on it:
full-page text search (search_for with dehyphenation flags), clipped text
search (search_for with a clip rectangle), its widget list and its
bounding rectangle. -/
structure Page where
  rect : Rect
  widgets : List Widget
  search : String → List Rect
  searchClip : String → Rect → List Rect

/-- Whether the first character list is a prefix of the second. -/
def isPrefixL : List Char → List Char → Bool
  | [], _ => true
  | _ :: _, [] => false
  | a :: as, b :: bs => a == b && isPrefixL as bs

/-- Whether the first character list occurs contiguously in the second. -/
def isInfixL (pat hay : List Char) : Bool :=
  match hay with
  | [] => isPrefixL pat []
  | _ :: bs => isPrefixL pat hay || isInfixL pat bs

/-- Python substring test (the in operator on strings): pat occurs
contiguously in hay. -/
def strContains (hay pat : String) : Bool :=
  isInfixL pat.data hay.data

/-- Python str.lower on the ASCII inputs the program handles.  Defined on
the character list so that it evaluates inside the kernel. -/
def lowerStr (s : String) : String :=
  ⟨s.data.map Char.toLower⟩

/-- Python str.strip: remove leading and trailing whitespace. -/
def trimStr (s : String) : String :=
  ⟨((s.data.dropWhile Char.isWhitespace).reverse.dropWhile Char.isWhitespace).reverse⟩

/-- Python line.split on the first equals sign, returning the parts before
and after it: the pair (key, value) of str.split with maxsplit one. -/
def splitFirstEq : List Char → List Char × List Char
  | [] => ([], [])
  | c :: cs =>
    if c = '=' then ([], cs)
    else ((splitFirstEq cs).1.cons c, (splitFirstEq cs).2)

/-! ## Entity Store: load_entity_data -/

/-- One line of the entity file, lines 51-60 of the source: strip the line,
skip blank lines and lines starting with the hash character, split lines
containing an equals sign at the FIRST equals sign, strip key and value.
Lines without an equals sign only produce a warning (no entry). -/
def parseLine (line : String) : Option (String × String) :=
  let l := trimStr line
  if l = "" then none
  else if isPrefixL "#".data l.data then none
  else if l.data.contains '=' then
    some (trimStr ⟨(splitFirstEq l.data).1⟩, trimStr ⟨(splitFirstEq l.data).2⟩)
  else none

/-- Python dict assignment d[k] = v on an insertion-ordered dictionary:
overwrite the value in place when the key is present, else append. -/
def dictInsert (m : List (String × String)) (k v : String) : List (String × String) :=
  if m.any (fun kv => kv.1 == k) then
    m.map (fun kv => if kv.1 == k then (k, v) else kv)
  else m ++ [(k, v)]

/-- load_entity_data, lines 47-70 of the source, on the list of lines of
the entity file. -/
def load_entity_data (lines : List String) : List (String × String) :=
  lines.foldl (fun m line =>
    match parseLine line with
    | some kv => dictInsert m kv.1 kv.2
    | none => m) []

/-- Dictionary lookup on the insertion-ordered entity record. -/
def lookupVal (m : List (String × String)) (k : String) : Option String :=
  (m.find? (fun kv => kv.1 == k)).map (fun kv => kv.2)

/-- Value of the last pair with the given key in a plain list of pairs. -/
def lastVal (k : String) (pairs : List (String × String)) : Option String :=
  (pairs.reverse.find? (fun kv => kv.1 == k)).map (fun kv => kv.2)

/-! ## Field Matcher: find_matching_entity_value -/

/-- Company-category pattern list, lines 154-158 of the source. -/
def companyFieldPatterns : List String :=
  ["recipient", "receiving party", "offeree", "representatives",
   "representative", "company", "name", "entity", "party",
   "organization", "corporation", "firm", "business"]

/-- Address-category pattern list, lines 160-163 of the source. -/
def addressFieldPatterns : List String :=
  ["address", "location", "street", "city", "state", "zip",
   "postal", "residence", "place"]

/-- Keyword-to-candidate-key table, lines 182-186 of the source, in
dictionary insertion order. -/
def fieldMappings : List (String × List String) :=
  [("title", ["title", "position"]),
   ("date", ["date"]),
   ("signature", ["company", "name"])]

/-- Rule 1, lines 149-151: first entity pair whose lower-cased key equals
the lower-cased field name. -/
def rule1Scan (entity : List (String × String)) (fnl : String) : Option String :=
  match entity with
  | [] => none
  | (k, v) :: rest => if lowerStr k = fnl then some v else rule1Scan rest fnl

/-- Inner resolution loop of rules 2 and 3, lines 169-171 and 177-179:
first entity pair whose lower-cased key is one of the given keys. -/
def resolveKeys (entity : List (String × String)) (keys : List String) : Option String :=
  match entity with
  | [] => none
  | (k, v) :: rest =>
    if keys.contains (lowerStr k) then some v else resolveKeys rest keys

/-- Category scan shared by rules 2 and 3, lines 166-171 and 174-179: walk
the pattern list; on a pattern contained in the field name, run the inner
resolution loop and return its value when it produces one; otherwise keep
walking the remaining patterns. -/
def categoryScan (pats : List String) (keys : List String)
    (entity : List (String × String)) (fnl : String) : Option String :=
  match pats with
  | [] => none
  | p :: ps =>
    if strContains fnl p then
      match resolveKeys entity keys with
      | some v => some v
      | none => categoryScan ps keys entity fnl
    else categoryScan ps keys entity fnl

/-- Instrumented trace of the same loop: the containment hits the loop
processes, in order.  The loop of lines 166-171 (and identically 174-179)
returns at a hit only when the inner resolution produces a value; a hit
that produces nothing is followed by further hits. -/
def categoryScanHits (pats : List String) (keys : List String)
    (entity : List (String × String)) (fnl : String) : List String :=
  match pats with
  | [] => []
  | p :: ps =>
    if strContains fnl p then
      match resolveKeys entity keys with
      | some _ => [p]
      | none => p :: categoryScanHits ps keys entity fnl
    else categoryScanHits ps keys entity fnl

/-- Modelled from the spec: the stop-after-first-hit variant the spec
ascribes to the address branch (return the inner resolution result at the
first containment hit, scanning no further patterns after that hit). -/
def categoryScanStop (pats : List String) (keys : List String)
    (entity : List (String × String)) (fnl : String) : Option String :=
  match pats with
  | [] => none
  | p :: ps =>
    if strContains fnl p then resolveKeys entity keys
    else categoryScanStop ps keys entity fnl

/-- Candidate-key loop of rule 4, lines 190-193: for each candidate key in
listed order, first entity pair whose lower-cased key contains the
candidate as a substring. -/
def candidateScan (keys : List String) (entity : List (String × String)) : Option String :=
  match keys with
  | [] => none
  | key :: ks =>
    match entity.find? (fun kv => strContains (lowerStr kv.1) key) with
    | some kv => some kv.2
    | none => candidateScan ks entity

/-- Rule 4, lines 188-193: walk the mapping table; on a pattern contained
in the field name, run the candidate-key loop; on no value, keep walking
the remaining table entries. -/
def mappingScan (maps : List (String × List String))
    (entity : List (String × String)) (fnl : String) : Option String :=
  match maps with
  | [] => none
  | (p, keys) :: rest =>
    if strContains fnl p then
      match candidateScan keys entity with
      | some v => some v
      | none => mappingScan rest entity fnl
    else mappingScan rest entity fnl

/-- Modelled from the spec wording of claim C4: for the first table pattern
contained in the field name, scan ENTITY keys in iteration order and return
the value of the first entity key whose lower-cased form contains any of
that pattern's candidate keys. -/
def mappingScanClaimOrder (maps : List (String × List String))
    (entity : List (String × String)) (fnl : String) : Option String :=
  match maps with
  | [] => none
  | (p, keys) :: rest =>
    if strContains fnl p then
      match entity.find? (fun kv => keys.any (fun key => strContains (lowerStr kv.1) key)) with
      | some kv => some kv.2
      | none => none
    else mappingScanClaimOrder rest entity fnl

/-- find_matching_entity_value, lines 136-195 of the source: rule 1 (exact
case-insensitive key match), rule 2 (company categories), rule 3 (address
categories), rule 4 (keyword-to-candidate-key table), else nothing. -/
def find_matching_entity_value (entity : List (String × String))
    (fieldName : String) : Option String :=
  match rule1Scan entity (lowerStr fieldName) with
  | some v => some v
  | none =>
    match categoryScan companyFieldPatterns ["company", "name", "entity"] entity
        (lowerStr fieldName) with
    | some v => some v
    | none =>
      match categoryScan addressFieldPatterns ["address", "location"] entity
          (lowerStr fieldName) with
      | some v => some v
      | none => mappingScan fieldMappings entity (lowerStr fieldName)

/-- Modelled from the spec: the matcher with both category branches in the
stop-after-first-hit form, for the behavioural comparison of claim C5. -/
def find_matching_entity_value_stop (entity : List (String × String))
    (fieldName : String) : Option String :=
  match rule1Scan entity (lowerStr fieldName) with
  | some v => some v
  | none =>
    match categoryScanStop companyFieldPatterns ["company", "name", "entity"] entity
        (lowerStr fieldName) with
    | some v => some v
    | none =>
      match categoryScanStop addressFieldPatterns ["address", "location"] entity
          (lowerStr fieldName) with
      | some v => some v
      | none => mappingScan fieldMappings entity (lowerStr fieldName)

/-! ## Definition Locator: fill_definition_fields

The source searches the first min(5, pageCount) pages for each term of the
local list definition_terms (currently only the single term Recipient),
takes the first occurrence on the page, rejects it when its inflated
rectangle meets a previously recorded filled area, and otherwise runs a
fixed chain of substitution strategies, the last of which cannot fail.
We keep the term list as a parameter of the recursion (the source walks a
local list variable) and instantiate it with the single configured term. -/

/-- Substitution strategy tags, in the order of the source, lines 321-530. -/
inductive Strategy where
  | underscore
  | meansPhrase
  | colonPhrase
  | bracket
  | bareLine
  | paren
  | direct
deriving DecidableEq, Repr

/-- One recorded text insertion by the Definition Locator. -/
structure Fill where
  page : Nat
  term : String
  strategy : Strategy
  x : Coord
  y : Coord
  text : String
deriving DecidableEq, Repr

/-- Result of the strategy chain for one term occurrence: the insertion
data, the filled-area rectangle the source records (none for the first
three strategies), extra terms marked replaced, and whether the source
breaks out of the term loop for the rest of the page (bracket strategy
only, line 446). -/
structure StratResult where
  strategy : Strategy
  x : Coord
  y : Coord
  text : String
  area : Option Rect
  extraReplaced : List String
  breakPage : Bool

/-- Underscore run patterns, lines 310-318 of the source, longest first. -/
def underscorePatterns : List String :=
  ["________________________",
   "__________________",
   "______________",
   "__________",
   "_______",
   "____",
   "___"]

/-- First pattern in the list with a non-empty search result; returns the
first rectangle of that result (the break-on-first-hit loops of lines
322-344 and 459-484). -/
def firstHit (pats : List String) (f : String → List Rect) : Option Rect :=
  match pats with
  | [] => none
  | p :: ps =>
    match (f p).head? with
    | some r => some r
    | none => firstHit ps f

/-- Strategies d through g, lines 387-530 of the source, reached when no
underscore run, means phrase or colon phrase was found. -/
def lateStrategies (page : Page) (company : String) (term : String)
    (inst : Rect) (bracketSearch : Rect) : StratResult :=
  let sq := page.searchClip "[" bracketSearch
  let relevant := sq.filter (fun br => inst.x1.ltb br.x0)
  let est : Coord := Coord.ofNat company.length * 5
  let afterBracket : StratResult :=
    match firstHit underscorePatterns (fun p => page.searchClip p bracketSearch) with
    | some ur =>
      { strategy := Strategy.bareLine,
        x := (ur.x0 + ur.x1) / 2 - est / 2, y := ur.y1 - 2, text := company,
        area := some ⟨ur.x0 - 20, ur.y0 - 10, ur.x1 + 20, ur.y1 + 10⟩,
        extraReplaced := [], breakPage := false }
    | none =>
      match (page.searchClip "(" ⟨inst.x1, inst.y0 - 5, inst.x1 + 100, inst.y1 + 5⟩).head? with
      | some pr =>
        { strategy := Strategy.paren,
          x := pr.x1 + 2, y := pr.y1, text := "\"" ++ company ++ "\"",
          area := some ⟨pr.x0 - 20, pr.y0 - 10, pr.x0 + 200, pr.y1 + 10⟩,
          extraReplaced := if term = "Representatives" then ["Representative"] else [],
          breakPage := false }
      | none =>
        { strategy := Strategy.direct,
          x := inst.x1 + 10, y := inst.y1, text := " (\"" ++ company ++ "\")",
          area := some ⟨inst.x0 - 20, inst.y0 - 10, inst.x1 + 200, inst.y1 + 10⟩,
          extraReplaced := [], breakPage := false }
  match relevant.head? with
  | some br =>
    match (page.searchClip "]" ⟨br.x1, br.y0 - 10, br.x1 + 500, br.y1 + 10⟩).head? with
    | some cb =>
      { strategy := Strategy.bracket,
        x := (br.x1 + cb.x0) / 2 - est / 2, y := br.y1 - 3, text := company,
        area := some ⟨br.x0 - 20, br.y0 - 10, cb.x1 + 20, cb.y1 + 10⟩,
        extraReplaced := [], breakPage := true }
    | none => afterBracket
  | none => afterBracket

/-- The full strategy chain for one accepted term occurrence, lines 304-530
of the source.  The final direct-placement strategy cannot fail, so the
chain always produces a result. -/
def runStrategies (page : Page) (company : String) (term : String)
    (inst : Rect) : StratResult :=
  let searchArea : Rect := ⟨inst.x1, inst.y0 - 10, inst.x1 + 500, inst.y1 + 50⟩
  match firstHit underscorePatterns (fun p => page.searchClip p searchArea) with
  | some ur =>
    { strategy := Strategy.underscore,
      x := ur.x0, y := ur.y1 - 2, text := company,
      area := none, extraReplaced := [], breakPage := false }
  | none =>
    match (page.search (term ++ " means")).head? with
    | some mr =>
      { strategy := Strategy.meansPhrase,
        x := mr.x1 + 5, y := mr.y1, text := " " ++ company,
        area := none, extraReplaced := [], breakPage := false }
    | none =>
      match (page.search (term ++ ":")).head? with
      | some cr =>
        { strategy := Strategy.colonPhrase,
          x := cr.x1 + 5, y := cr.y1, text := " " ++ company,
          area := none, extraReplaced := [], breakPage := false }
      | none =>
        lateStrategies page company term inst
          ⟨inst.x0 - 50, inst.y0 - 30, inst.x1 + 700, inst.y1 + 60⟩

/-- Run state of fill_definition_fields: replaced_patterns, filled_areas
and the insertions performed so far. -/
structure DefState where
  replaced : List String
  filledAreas : List Rect
  fills : List Fill
deriving DecidableEq, Repr

/-- The empty run state. -/
def DefState.init : DefState := ⟨[], [], []⟩

/-- Processing of one term on one page, lines 282-533 of the source: skip
terms already replaced; skip terms without an occurrence on the page; skip
an occurrence whose rectangle inflated by 10 meets a recorded filled area
(the continue of line 303); otherwise run the strategy chain, record its
insertion, its filled area if any, and mark the term (plus extras)
replaced.  The Bool is the term-loop break of line 446. -/
def stepTerm (page : Page) (pn : Nat) (company : String) (term : String)
    (st : DefState) : DefState × Bool :=
  if st.replaced.contains term then (st, false)
  else
    match (page.search term).head? with
    | none => (st, false)
    | some inst =>
      let instArea : Rect := ⟨inst.x0 - 10, inst.y0 - 10, inst.x1 + 10, inst.y1 + 10⟩
      if st.filledAreas.any (fun fa => instArea.intersects fa) then (st, false)
      else
        let r := runStrategies page company term inst
        ({ replaced := st.replaced ++ term :: r.extraReplaced,
           filledAreas := st.filledAreas ++ r.area.toList,
           fills := st.fills ++ [⟨pn, term, r.strategy, r.x, r.y, r.text⟩] },
         r.breakPage)

/-- The term loop on one page, lines 282-533: process terms in order,
stopping for the rest of the page when a step reports the break. -/
def processTerms (page : Page) (pn : Nat) (company : String) :
    List String → DefState → DefState
  | [], st => st
  | t :: ts, st =>
    if (stepTerm page pn company t st).2 then (stepTerm page pn company t st).1
    else processTerms page pn company ts (stepTerm page pn company t st).1

/-- Company name selection, lines 254-257: value of the first entity pair
whose lower-cased key is company, name or entity. -/
def getCompanyName (entity : List (String × String)) : Option String :=
  (entity.find? (fun kv => ["company", "name", "entity"].contains (lowerStr kv.1))).map
    (fun kv => kv.2)

/-- fill_definition_fields, lines 239-540 of the source, generic in the
term list the source holds in its local definition_terms variable.  The
guard on line 259 is Python truthiness, so an empty-string company name
also aborts.  Scope is the first min(5, pageCount) pages, line 276. -/
def fillDefinitionFieldsGen (terms : List String) (doc : List Page)
    (entity : List (String × String)) : Bool × DefState :=
  match getCompanyName entity with
  | none => (false, DefState.init)
  | some c =>
    if c = "" then (false, DefState.init)
    else
      let inScope := doc.enum.take (min 5 doc.length)
      let final := inScope.foldl (fun st pp => processTerms pp.2 pp.1 c terms st)
        DefState.init
      (!final.fills.isEmpty, final)

/-- The configured term list, lines 264-266 of the source. -/
def definition_terms : List String := ["Recipient"]

/-- fill_definition_fields as configured in the source. -/
def fill_definition_fields (doc : List Page) (entity : List (String × String)) :
    Bool × DefState :=
  fillDefinitionFieldsGen definition_terms doc entity

/-! ## Signature/Keyword Locator: the placement part of fallback_placement -/

/-- Signature keyword list, line 559 of the source. -/
def signature_keywords : List String :=
  ["signature", "sign here", "by:", "signed by", "name:", "title:", "date:"]

/-- Accumulated keyword matches, lines 560-568: pages in index order,
keywords in list order, matches in search order. -/
def signatureLocations (doc : List Page) : List (Nat × Rect × String) :=
  doc.enum.flatMap (fun pp =>
    signature_keywords.flatMap (fun kw =>
      (pp.2.search kw).map (fun inst => (pp.1, inst, kw))))

/-- Signature placement choice, lines 554-581 of the source: below the last
accumulated match, else the fixed bottom-left rectangle of the last page.
The result pairs the target page index with the placement rectangle; an
empty document has no placement (the source would fault indexing page -1,
inside the try of process_pdf). -/
def fallbackSigPlacement (doc : List Page) : Option (Nat × Rect) :=
  match doc.getLast? with
  | none => none
  | some lastPage =>
    match (signatureLocations doc).getLast? with
    | some loc =>
      some (loc.1, ⟨loc.2.1.x0, loc.2.1.y1 + 10, loc.2.1.x0 + 150, loc.2.1.y1 + 60⟩)
    | none =>
      some (doc.length - 1,
        ⟨50, lastPage.rect.height - 150, 200, lastPage.rect.height - 100⟩)

/-! ## Placement Orchestrator: process_pdf -/

/-- Whether a text widget gets filled, lines 122-129: a matcher value that
is truthy in Python, that is, present and non-empty. -/
def widgetFilled (entity : List (String × String)) (w : Widget) : Bool :=
  match w.fieldType with
  | WidgetType.text =>
    match find_matching_entity_value entity w.fieldName with
    | some v => !(v == "")
    | none => false
  | _ => false

/-- fill_form_fields, lines 100-134: whether any text widget on any page
was filled. -/
def fill_form_fields (doc : List Page) (entity : List (String × String)) : Bool :=
  doc.any (fun p => p.widgets.any (widgetFilled entity))

/-- place_signature, lines 197-237: whether any page has a signature-typed
widget (the image insertion itself is an external collaborator). -/
def place_signature (doc : List Page) : Bool :=
  doc.any (fun p => p.widgets.any (fun w =>
    match w.fieldType with
    | WidgetType.signature => true
    | _ => false))

/-- Observable stages of one process_pdf run. -/
inductive Event where
  | formFill
  | sigFieldFill
  | defLocator
  | sigInsert
  | entityAnnotate
  | flatten
deriving DecidableEq, Repr

/-- process_pdf control flow, lines 680-694 of the source: both structured
attempts run; the fallback block (definition locator, then signature image
insertion at the located region, then entity text annotation) runs exactly
when both attempts report false; flattening always follows. -/
def process_pdf (doc : List Page) (entity : List (String × String)) : List Event :=
  let f := fill_form_fields doc entity
  let s := place_signature doc
  [Event.formFill, Event.sigFieldFill] ++
    (if !f && !s then [Event.defLocator, Event.sigInsert, Event.entityAnnotate]
     else []) ++
    [Event.flatten]

/-! ## Helper lemmas for the Field Matcher -/

/-- When the inner resolution finds nothing, the category scan finds
nothing, no matter how many patterns hit. -/
theorem categoryScan_of_resolve_none (pats keys : List String)
    (entity : List (String × String)) (fnl : String)
    (hr : resolveKeys entity keys = none) :
    categoryScan pats keys entity fnl = none := by
  induction pats with
  | nil => rfl
  | cons p ps ih =>
    unfold categoryScan
    rw [hr]
    split <;> exact ih

/-- The continue-scanning category loop of the source and the
stop-after-first-hit variant agree on every input, because the inner
resolution does not depend on the pattern that hit. -/
theorem categoryScan_eq_stop (pats keys : List String)
    (entity : List (String × String)) (fnl : String) :
    categoryScan pats keys entity fnl = categoryScanStop pats keys entity fnl := by
  induction pats with
  | nil => rfl
  | cons p ps ih =>
    unfold categoryScan categoryScanStop
    split
    · cases hr : resolveKeys entity keys with
      | none => exact categoryScan_of_resolve_none ps keys entity fnl hr
      | some v => rfl
    · exact ih

theorem rule1Scan_mem (entity : List (String × String)) (fnl v : String)
    (h : rule1Scan entity fnl = some v) : ∃ k, (k, v) ∈ entity := by
  induction entity with
  | nil => cases h
  | cons kv rest ih =>
    unfold rule1Scan at h
    split at h
    · cases h
      exact ⟨kv.1, List.mem_cons_self _ _⟩
    · obtain ⟨k, hk⟩ := ih h
      exact ⟨k, List.mem_cons_of_mem _ hk⟩

theorem resolveKeys_mem (entity : List (String × String)) (keys : List String)
    (v : String) (h : resolveKeys entity keys = some v) : ∃ k, (k, v) ∈ entity := by
  induction entity with
  | nil => cases h
  | cons kv rest ih =>
    unfold resolveKeys at h
    split at h
    · cases h
      exact ⟨kv.1, List.mem_cons_self _ _⟩
    · obtain ⟨k, hk⟩ := ih h
      exact ⟨k, List.mem_cons_of_mem _ hk⟩

theorem categoryScan_mem (pats keys : List String)
    (entity : List (String × String)) (fnl v : String)
    (h : categoryScan pats keys entity fnl = some v) : ∃ k, (k, v) ∈ entity := by
  induction pats with
  | nil => cases h
  | cons p ps ih =>
    unfold categoryScan at h
    split at h
    · cases hr : resolveKeys entity keys with
      | none => rw [hr] at h; exact ih h
      | some w =>
        rw [hr] at h
        cases h
        exact resolveKeys_mem entity keys v hr
    · exact ih h

theorem candidateScan_mem (keys : List String) (entity : List (String × String))
    (v : String) (h : candidateScan keys entity = some v) : ∃ k, (k, v) ∈ entity := by
  induction keys with
  | nil => cases h
  | cons key ks ih =>
    unfold candidateScan at h
    cases hf : entity.find? (fun kv => strContains (lowerStr kv.1) key) with
    | none => rw [hf] at h; exact ih h
    | some kv =>
      rw [hf] at h
      cases h
      exact ⟨kv.1, List.mem_of_find?_eq_some hf⟩

theorem mappingScan_mem (maps : List (String × List String))
    (entity : List (String × String)) (fnl v : String)
    (h : mappingScan maps entity fnl = some v) : ∃ k, (k, v) ∈ entity := by
  induction maps with
  | nil => cases h
  | cons m rest ih =>
    unfold mappingScan at h
    split at h
    · cases hc : candidateScan m.2 entity with
      | none => rw [hc] at h; exact ih h
      | some w =>
        rw [hc] at h
        cases h
        exact candidateScan_mem m.2 entity v hc
    · exact ih h

/-! ## Claims C4, C5, C8 -/

/-- Claim C8: for every entity record and field name, the Field Matcher
returns either nothing or a value stored in the entity record; it never
fabricates a value. -/
theorem matcher_no_fabrication (entity : List (String × String))
    (fieldName v : String)
    (h : find_matching_entity_value entity fieldName = some v) :
    ∃ k, (k, v) ∈ entity := by
  unfold find_matching_entity_value at h
  cases h1 : rule1Scan entity (lowerStr fieldName) with
  | some w =>
    rw [h1] at h
    cases h
    exact rule1Scan_mem _ _ _ h1
  | none =>
    rw [h1] at h
    cases h2 : categoryScan companyFieldPatterns ["company", "name", "entity"]
        entity (lowerStr fieldName) with
    | some w =>
      rw [h2] at h
      cases h
      exact categoryScan_mem _ _ _ _ _ h2
    | none =>
      rw [h2] at h
      cases h3 : categoryScan addressFieldPatterns ["address", "location"]
          entity (lowerStr fieldName) with
      | some w =>
        rw [h3] at h
        cases h
        exact categoryScan_mem _ _ _ _ _ h3
      | none =>
        rw [h3] at h
        exact mappingScan_mem _ _ _ _ h

/-- Witness for C8 at a concrete input: the matcher returns a value that
the membership theorem then locates in the record. -/
theorem matcher_no_fabrication_witness :
    find_matching_entity_value [("Company", "Acme")] "Company" = some "Acme" ∧
    ∃ k, (k, "Acme") ∈ [("Company", "Acme")] :=
  ⟨rfl, matcher_no_fabrication [("Company", "Acme")] "Company" "Acme" rfl⟩

/-- Counterexample to claim C5: the address-category loop of the source
does not stop scanning after a containment hit that produces no value: on
the field name city state with an empty entity record it processes the hit
on city and then the hit on state, exactly as the company-category loop
processes both of its hits on firm business.  The two branches treat a
fruitless containment hit identically. -/
theorem category_branches_counterexample :
    categoryScanHits addressFieldPatterns ["address", "location"] [] "city state"
        = ["city", "state"] ∧
    categoryScanHits companyFieldPatterns ["company", "name", "entity"] [] "firm business"
        = ["firm", "business"] ∧
    (["city", "state"] : List String) ≠ ["city"] := by
  refine ⟨by decide, by decide, by decide⟩

/-- Claim C5 as amended: the company and address branches are implemented
identically, both continuing past a fruitless containment hit, and the
difference the spec describes is unobservable anyway: the matcher equals
the variant in which both category branches stop at the first containment
hit. -/
theorem matcher_eq_stop_variant (entity : List (String × String))
    (fieldName : String) :
    find_matching_entity_value entity fieldName =
      find_matching_entity_value_stop entity fieldName := by
  unfold find_matching_entity_value find_matching_entity_value_stop
  rw [categoryScan_eq_stop, categoryScan_eq_stop]

/-- Counterexample to claim C4: rule 4 scans candidate keys in the listed
order of the table entry and entity keys inside, not entity keys outside.
On the claim-order reading, the entity order Position before Title makes
the matcher return the Position value for a title field; the source
returns the Title value, because the candidate key title is tried against
every entity key before the candidate key position is. -/
theorem rule4_order_counterexample :
    find_matching_entity_value [("Position", "P"), ("Title", "T")] "job title"
        = some "T" ∧
    mappingScanClaimOrder fieldMappings [("Position", "P"), ("Title", "T")]
        "job title" = some "P" ∧
    ("T" : String) ≠ "P" := by
  refine ⟨by decide, by decide, by decide⟩

/-- The scan order of rule 4 spelled out flat: the candidate keys of every
table entry whose pattern is contained in the lower-cased field name, table
entries in their listed order and candidates within an entry in their
listed order. -/
def candidatesInOrder (maps : List (String × List String)) (fnl : String) :
    List String :=
  (maps.filter (fun m => strContains fnl m.1)).flatMap (fun m => m.2)

/-- The candidate-key loop distributes over list append: later candidates
are consulted exactly when the earlier ones produce nothing. -/
theorem candidateScan_append (xs ys : List String)
    (entity : List (String × String)) :
    candidateScan (xs ++ ys) entity =
      match candidateScan xs entity with
      | some v => some v
      | none => candidateScan ys entity := by
  induction xs with
  | nil => rfl
  | cons key ks ih =>
    show (match entity.find? (fun kv => strContains (lowerStr kv.1) key) with
        | some kv => some kv.2
        | none => candidateScan (ks ++ ys) entity) =
      match (match entity.find? (fun kv => strContains (lowerStr kv.1) key) with
        | some kv => some kv.2
        | none => candidateScan ks entity) with
        | some v => some v
        | none => candidateScan ys entity
    cases entity.find? (fun kv => strContains (lowerStr kv.1) key) with
    | none => exact ih
    | some kv => rfl

/-- Rule 4 equals a single first-match scan over the flattened candidate
order: patterns not contained contribute nothing, and a contained pattern
whose candidates all fail falls through to the later contained patterns. -/
theorem mappingScan_eq_flat (maps : List (String × List String))
    (entity : List (String × String)) (fnl : String) :
    mappingScan maps entity fnl = candidateScan (candidatesInOrder maps fnl) entity := by
  induction maps with
  | nil => rfl
  | cons m rest ih =>
    unfold mappingScan candidatesInOrder
    cases hc : strContains fnl m.1 with
    | false =>
      simp only [List.filter_cons, hc, Bool.false_eq_true, if_false]
      exact ih
    | true =>
      simp only [List.filter_cons, hc, if_true, List.flatMap_cons]
      rw [candidateScan_append]
      cases candidateScan m.2 entity with
      | none => exact ih
      | some v => rfl

/-- Claim C4 as amended: once rules 1 to 3 produce nothing, rule 4 scans
the candidate keys of the table patterns contained in the lower-cased
field name — table entries in listed order, candidate keys within an entry
in listed order — and a candidate contained in some entity key returns the
value of the FIRST such entity key in iteration order, while a candidate
contained in no entity key falls through to the next candidate (and, the
flattening shows, a contained pattern whose candidates all fail falls
through to the later contained patterns). -/
theorem rule4_candidate_priority (entity : List (String × String))
    (fieldName : String)
    (h1 : rule1Scan entity (lowerStr fieldName) = none)
    (h2 : categoryScan companyFieldPatterns ["company", "name", "entity"]
        entity (lowerStr fieldName) = none)
    (h3 : categoryScan addressFieldPatterns ["address", "location"]
        entity (lowerStr fieldName) = none) :
    find_matching_entity_value entity fieldName =
      candidateScan (candidatesInOrder fieldMappings (lowerStr fieldName)) entity ∧
    (∀ key ks ek ev,
      entity.find? (fun kv => strContains (lowerStr kv.1) key) = some (ek, ev) →
      candidateScan (key :: ks) entity = some ev) ∧
    (∀ key ks,
      entity.find? (fun kv => strContains (lowerStr kv.1) key) = none →
      candidateScan (key :: ks) entity = candidateScan ks entity) := by
  refine ⟨?_, ?_, ?_⟩
  · unfold find_matching_entity_value
    rw [h1, h2, h3]
    exact mappingScan_eq_flat fieldMappings entity (lowerStr fieldName)
  · intro key ks ek ev hf
    show (match entity.find? (fun kv => strContains (lowerStr kv.1) key) with
        | some kv => some kv.2
        | none => candidateScan ks entity) = some ev
    rw [hf]
  · intro key ks hf
    show (match entity.find? (fun kv => strContains (lowerStr kv.1) key) with
        | some kv => some kv.2
        | none => candidateScan ks entity) = candidateScan ks entity
    rw [hf]

/-- Witness for the amended C4 at a concrete input: for the field name
my title only the title pattern is contained, its flattened candidate
order is title then position, and the candidate title is contained in the
entity key JobTitle, so that value wins over the earlier Position key. -/
theorem rule4_candidate_priority_witness :
    candidatesInOrder fieldMappings (lowerStr "my title") = ["title", "position"] ∧
    find_matching_entity_value [("Position", "PP"), ("JobTitle", "TT")] "my title"
      = some "TT" := by
  have h := rule4_candidate_priority [("Position", "PP"), ("JobTitle", "TT")]
    "my title" (by decide) (by decide) (by decide)
  have hflat : candidatesInOrder fieldMappings (lowerStr "my title")
      = ["title", "position"] := by decide
  refine ⟨hflat, ?_⟩
  rw [h.1, hflat]
  exact h.2.1 "title" ["position"] "JobTitle" "TT" (by decide)

/-! ## Helper lemmas for the Entity Store -/

theorem lookupVal_append (m1 m2 : List (String × String)) (k : String) :
    lookupVal (m1 ++ m2) k =
      match lookupVal m1 k with
      | some v => some v
      | none => lookupVal m2 k := by
  unfold lookupVal
  rw [List.find?_append]
  cases List.find? (fun kv => kv.1 == k) m1 <;> simp [Option.or]

theorem lookupVal_map_ne (m : List (String × String)) (k0 v k : String)
    (hne : k ≠ k0) :
    lookupVal (m.map (fun kv => if kv.1 == k0 then (k0, v) else kv)) k
      = lookupVal m k := by
  induction m with
  | nil => rfl
  | cons kv rest ih =>
    unfold lookupVal at ih ⊢
    cases hb : kv.1 == k0 with
    | true =>
      have hk1 : kv.1 = k0 := by simpa using hb
      have h1 : (k0 == k) = false := by
        simp [Ne.symm hne]
      have h2 : (kv.1 == k) = false := by
        simp [hk1, Ne.symm hne]
      simp only [List.map_cons, hb, if_true, List.find?_cons, h1, h2]
      exact ih
    | false =>
      simp only [List.map_cons, hb, Bool.false_eq_true, if_false, List.find?_cons]
      cases hp : kv.1 == k with
      | true => rfl
      | false => exact ih

theorem lookupVal_map_eq (m : List (String × String)) (k0 v : String)
    (hm : m.any (fun kv => kv.1 == k0) = true) :
    lookupVal (m.map (fun kv => if kv.1 == k0 then (k0, v) else kv)) k0
      = some v := by
  induction m with
  | nil => cases hm
  | cons kv rest ih =>
    cases hb : kv.1 == k0 with
    | true =>
      unfold lookupVal
      simp only [List.map_cons, hb, if_true, List.find?_cons, beq_self_eq_true]
      rfl
    | false =>
      have hrest : rest.any (fun kv => kv.1 == k0) = true := by
        rw [List.any_cons, hb] at hm
        simpa using hm
      unfold lookupVal at ih ⊢
      simp only [List.map_cons, hb, Bool.false_eq_true, if_false, List.find?_cons]
      exact ih hrest

theorem lookupVal_dictInsert (m : List (String × String)) (k0 v k : String) :
    lookupVal (dictInsert m k0 v) k = if k = k0 then some v else lookupVal m k := by
  unfold dictInsert
  cases hm : m.any (fun kv => kv.1 == k0) with
  | true =>
    simp only [hm, if_true]
    by_cases hk : k = k0
    · subst hk
      rw [lookupVal_map_eq m k v hm, if_pos rfl]
    · rw [lookupVal_map_ne m k0 v k hk, if_neg hk]
  | false =>
    simp only [hm, Bool.false_eq_true, if_false]
    rw [lookupVal_append]
    have hnone : ∀ kv ∈ m, ¬(kv.1 == k0) = true := by
      intro kv hkv
      exact (List.any_eq_false.mp hm) kv hkv
    by_cases hk : k = k0
    · subst hk
      have hmk : lookupVal m k = none := by
        unfold lookupVal
        rw [List.find?_eq_none.mpr hnone]
        rfl
      rw [hmk]
      simp [lookupVal, List.find?_cons]
    · have h1 : (k0 == k) = false := by simp [Ne.symm hk]
      have h2 : lookupVal [(k0, v)] k = none := by
        simp [lookupVal, List.find?_cons, h1]
      rw [h2, if_neg hk]
      cases lookupVal m k <;> rfl

theorem lastVal_cons (k : String) (kv : String × String)
    (rest : List (String × String)) :
    lastVal k (kv :: rest) =
      match lastVal k rest with
      | some v => some v
      | none => if kv.1 == k then some kv.2 else none := by
  unfold lastVal
  simp only [List.reverse_cons]
  rw [List.find?_append]
  cases List.find? (fun kv => kv.1 == k) rest.reverse with
  | none =>
    simp only [Option.map_none, Option.none_or]
    cases hb : kv.1 == k <;> simp [List.find?_cons, hb]
  | some w => simp [Option.or]

theorem load_lookup_aux (ls : List String) (m : List (String × String)) (k : String) :
    lookupVal (ls.foldl (fun m line =>
        match parseLine line with
        | some kv => dictInsert m kv.1 kv.2
        | none => m) m) k =
      match lastVal k (ls.filterMap parseLine) with
      | some v => some v
      | none => lookupVal m k := by
  induction ls generalizing m with
  | nil => simp [lastVal]
  | cons l ls ih =>
    simp only [List.foldl_cons, List.filterMap_cons]
    cases hp : parseLine l with
    | none =>
      simp only [hp]
      exact ih m
    | some kv =>
      simp only [hp]
      rw [ih (dictInsert m kv.1 kv.2), lastVal_cons]
      cases lastVal k (ls.filterMap parseLine) with
      | some v => rfl
      | none =>
        rw [lookupVal_dictInsert]
        by_cases hk : k = kv.1
        · subst hk
          simp
        · have hb : (kv.1 == k) = false := by simp [Ne.symm hk]
          simp [hk, hb]

/-! ## Claims C10, C9, C7 -/

/-- Claim C10: in load_entity_data, a later line with the same stripped key
silently overwrites the value of an earlier one (the dictionary lookup of
the result equals the value of the LAST parsed line with that key), and a
line is split only at its first equals sign, so values may contain further
equals signs. -/
theorem load_last_wins_first_split :
    (∀ (ls : List String) (k : String),
      lookupVal (load_entity_data ls) k = lastVal k (ls.filterMap parseLine)) ∧
    lookupVal (load_entity_data ["k = a=b"]) "k" = some "a=b" ∧
    load_entity_data ["dup = 1", "dup = 2"] = [("dup", "2")] := by
  refine ⟨?_, by decide, by decide⟩
  intro ls k
  rw [show load_entity_data ls = ls.foldl (fun m line =>
        match parseLine line with
        | some kv => dictInsert m kv.1 kv.2
        | none => m) [] from rfl]
  rw [load_lookup_aux ls [] k]
  cases lastVal k (ls.filterMap parseLine) <;> rfl

/-- From the no-company-key hypothesis, the company name selection of
lines 254-257 finds nothing. -/
theorem getCompanyName_none (entity : List (String × String))
    (h : entity.all
      (fun kv => !(["company", "name", "entity"].contains (lowerStr kv.1))) = true) :
    getCompanyName entity = none := by
  unfold getCompanyName
  rw [List.find?_eq_none.mpr]
  · rfl
  · intro kv hkv
    have hb := List.all_eq_true.mp h kv hkv
    simp only [Bool.not_eq_eq_eq_not, Bool.not_true] at hb
    simp only [hb]
    exact Bool.false_ne_true

/-- Claim C9: when the entity record has no key that lower-cases to
company, name or entity, fill_definition_fields performs no modification at
all and reports zero fills: the run returns false with the empty state (no
recorded insertion, no filled area, no replaced term). -/
theorem no_company_key_no_op (doc : List Page) (entity : List (String × String))
    (h : entity.all
      (fun kv => !(["company", "name", "entity"].contains (lowerStr kv.1))) = true) :
    fill_definition_fields doc entity = (false, DefState.init) := by
  unfold fill_definition_fields fillDefinitionFieldsGen
  rw [getCompanyName_none entity h]

/-- A page on which the term Recipient does occur, used to witness that
even then nothing happens without a company-like entity key. -/
def c9Page : Page where
  rect := ⟨0, 0, 612, 792⟩
  widgets := []
  search := fun s => if s = "Recipient" then [⟨72, 200, 130, 212⟩] else []
  searchClip := fun _ _ => []

/-- Witness for C9 at a concrete input: a document containing the term
Recipient and an entity record with only an Address key. -/
theorem no_company_key_no_op_witness :
    fill_definition_fields [c9Page] [("Address", "1 Main St")] = (false, DefState.init) :=
  no_company_key_no_op [c9Page] [("Address", "1 Main St")] (by decide)

/-- Claim C7: the fallback heuristics (definition locator, signature image
insertion at the located region, entity text annotation) run exactly when
both structured attempts report no fills; when either succeeds the run
goes straight from the structured attempts to flattening. -/
theorem fallback_iff_both_fail (doc : List Page) (entity : List (String × String)) :
    (Event.defLocator ∈ process_pdf doc entity ↔
      fill_form_fields doc entity = false ∧ place_signature doc = false) ∧
    (Event.sigInsert ∈ process_pdf doc entity ↔
      fill_form_fields doc entity = false ∧ place_signature doc = false) ∧
    (Event.entityAnnotate ∈ process_pdf doc entity ↔
      fill_form_fields doc entity = false ∧ place_signature doc = false) ∧
    process_pdf doc entity =
      (if fill_form_fields doc entity = false ∧ place_signature doc = false then
        [Event.formFill, Event.sigFieldFill, Event.defLocator, Event.sigInsert,
         Event.entityAnnotate, Event.flatten]
       else [Event.formFill, Event.sigFieldFill, Event.flatten]) := by
  cases hf : fill_form_fields doc entity <;> cases hs : place_signature doc <;>
    simp [process_pdf, hf, hs]

/-! ## Helper lemmas for the Definition Locator -/

/-- Outcome shape of one term step: either the state is untouched (term
already replaced, no occurrence, or overlap skip) or exactly one fill for
this term is appended, the term is marked replaced, and at most one filled
area is recorded. -/
theorem stepTerm_cases (page : Page) (pn : Nat) (c term : String) (st : DefState) :
    (stepTerm page pn c term st).1 = st ∨
    (st.replaced.contains term = false ∧
      ∃ r : StratResult,
        (stepTerm page pn c term st).1 =
          ⟨st.replaced ++ term :: r.extraReplaced,
           st.filledAreas ++ r.area.toList,
           st.fills ++ [⟨pn, term, r.strategy, r.x, r.y, r.text⟩]⟩) := by
  unfold stepTerm
  split
  · exact Or.inl rfl
  next h1 =>
    cases hh : (page.search term).head? with
    | none => exact Or.inl rfl
    | some inst =>
      simp only [hh]
      split
      · exact Or.inl rfl
      · exact Or.inr ⟨by simpa using h1, runStrategies page c term inst, rfl⟩

/-- Invariant of the single-term Recipient run: at most one fill, every
fill is for Recipient, at most as many recorded areas as fills, and a fill
forces Recipient into the replaced set. -/
def RecipInv (st : DefState) : Prop :=
  st.fills.length ≤ 1 ∧
  st.filledAreas.length ≤ st.fills.length ∧
  (st.fills = [] ∨ st.replaced.contains "Recipient" = true) ∧
  st.fills.all (fun f => f.term == "Recipient") = true

theorem recipInv_init : RecipInv DefState.init := by
  refine ⟨by decide, by decide, Or.inl rfl, by decide⟩

theorem stepTerm_recipInv (page : Page) (pn : Nat) (c : String) (st : DefState)
    (h : RecipInv st) : RecipInv (stepTerm page pn c "Recipient" st).1 := by
  rcases stepTerm_cases page pn c "Recipient" st with heq | ⟨hc, r, heq⟩
  · rw [heq]; exact h
  · obtain ⟨h1, h2, h3, h4⟩ := h
    have hfills : st.fills = [] := by
      rcases h3 with h3 | h3
      · exact h3
      · rw [h3] at hc; cases hc
    have hareas : st.filledAreas = [] := by
      rw [hfills] at h2
      exact List.length_eq_zero.mp (Nat.le_zero.mp h2)
    rw [heq]
    refine ⟨?_, ?_, ?_, ?_⟩
    · simp [hfills]
    · rw [hfills, hareas]
      cases r.area <;> simp [Option.toList]
    · refine Or.inr ?_
      have hmem : "Recipient" ∈ st.replaced ++ "Recipient" :: r.extraReplaced := by
        simp
      exact List.elem_eq_true_of_mem hmem
    · rw [hfills]
      simp

/-- The term loop on a single-term list is one term step. -/
theorem processTerms_single (page : Page) (pn : Nat) (c t : String) (st : DefState) :
    processTerms page pn c [t] st = (stepTerm page pn c t st).1 := by
  unfold processTerms
  split <;> rfl

theorem foldl_recipInv (c : String) (l : List (Nat × Page)) (st : DefState)
    (h : RecipInv st) :
    RecipInv (l.foldl (fun st pp => processTerms pp.2 pp.1 c ["Recipient"] st) st) := by
  induction l generalizing st with
  | nil => exact h
  | cons pp ps ih =>
    rw [List.foldl_cons]
    refine ih _ ?_
    rw [processTerms_single]
    exact stepTerm_recipInv pp.2 pp.1 c st h

/-- The final state of every configured fill_definition_fields run
satisfies the single-term invariant. -/
theorem fill_definition_fields_inv (doc : List Page)
    (entity : List (String × String)) :
    RecipInv (fill_definition_fields doc entity).2 := by
  unfold fill_definition_fields fillDefinitionFieldsGen definition_terms
  cases getCompanyName entity with
  | none => exact recipInv_init
  | some c =>
    by_cases h0 : c = ""
    · simp only [h0, if_true]
      exact recipInv_init
    · simp only [h0, if_false]
      exact foldl_recipInv c _ DefState.init recipInv_init

theorem pairwise_of_length_le_one {α : Type} (R : α → α → Prop) (l : List α)
    (h : l.length ≤ 1) : List.Pairwise R l := by
  cases l with
  | nil => exact List.Pairwise.nil
  | cons a t =>
    cases t with
    | nil => exact List.pairwise_singleton R a
    | cons b u => simp at h

/-! ## Claims C2 and C6 -/

/-- Claim C2: the term Recipient is substituted at most once per run: the
configured Definition Locator records at most one fill, every recorded
fill is for Recipient, and once a fill exists the term is in the replaced
set, so no later page substitutes it again. -/
theorem recipient_at_most_once (doc : List Page) (entity : List (String × String)) :
    (fill_definition_fields doc entity).2.fills.length ≤ 1 ∧
    (fill_definition_fields doc entity).2.fills.all
      (fun f => f.term == "Recipient") = true ∧
    ((fill_definition_fields doc entity).2.fills = [] ∨
      (fill_definition_fields doc entity).2.replaced.contains "Recipient" = true) := by
  obtain ⟨h1, _, h3, h4⟩ := fill_definition_fields_inv doc entity
  exact ⟨h1, h4, h3⟩

/-- Claim C6: no two accepted fills of a run overlap: the recorded padded
regions of a configured run are pairwise non-intersecting (the run accepts
at most one fill, so there is never a previously accepted fill to clash
with). -/
theorem fills_never_overlap (doc : List Page) (entity : List (String × String)) :
    List.Pairwise (fun a b : Rect => a.intersects b = false)
      (fill_definition_fields doc entity).2.filledAreas ∧
    (fill_definition_fields doc entity).2.fills.length ≤ 1 := by
  obtain ⟨h1, h2, _, _⟩ := fill_definition_fields_inv doc entity
  exact ⟨pairwise_of_length_le_one _ _ (le_trans h2 h1), h1⟩

/-! ## Claim C3 -/

/-- Claim C3 as amended: when the inflated rectangle of the first located
occurrence of a not-yet-replaced term meets a previously recorded filled
area, the term is skipped on THAT PAGE only: the state is returned
unchanged — in particular the term is not added to the replaced set — and
the term loop continues, so the term remains eligible for substitution on
a later page of the scope. -/
theorem overlap_skips_term_on_page_only (page : Page) (pn : Nat) (c term : String)
    (st : DefState) (inst : Rect)
    (h1 : st.replaced.contains term = false)
    (h2 : (page.search term).head? = some inst)
    (h3 : st.filledAreas.any (fun fa =>
      Rect.intersects ⟨inst.x0 - 10, inst.y0 - 10, inst.x1 + 10, inst.y1 + 10⟩ fa)
      = true) :
    stepTerm page pn c term st = (st, false) := by
  unfold stepTerm
  rw [h1, h2]
  simp only [Bool.false_eq_true, if_false, h3, if_true]

/-- First page of the C3 scenario: term A at one spot with an opening
parenthesis after it, term B right below A. -/
def c3Page0 : Page where
  rect := ⟨0, 0, 612, 792⟩
  widgets := []
  search := fun s =>
    if s = "A" then [⟨100, 100, 110, 110⟩]
    else if s = "B" then [⟨96, 100, 106, 110⟩]
    else []
  searchClip := fun s _ => if s = "(" then [⟨115, 100, 120, 110⟩] else []

/-- Second page of the C3 scenario: term B occurs again, far from the
area filled on page one. -/
def c3Page1 : Page where
  rect := ⟨0, 0, 612, 792⟩
  widgets := []
  search := fun s => if s = "B" then [⟨100, 300, 110, 310⟩] else []
  searchClip := fun _ _ => []

/-- The two-term Definition Locator run of the C3 scenario. -/
def c3Run : Bool × DefState :=
  fillDefinitionFieldsGen ["A", "B"] [c3Page0, c3Page1] [("Company", "ACME")]

/-- State after term A is filled on page zero of the C3 scenario: the
parenthesis strategy recorded the padded area around the insertion. -/
def c3AfterA : DefState :=
  ⟨["A"], [⟨95, 90, 315, 120⟩],
   [⟨0, "A", Strategy.paren, 122, 110, "\"ACME\""⟩]⟩

/-- Counterexample to claim C3: in the term-list-generic locator loop
(instantiated with two terms so that a recorded filled area can precede an
unreplaced term), term B is overlap-skipped on page zero — its inflated
occurrence meets the area recorded for term A — yet the run substitutes B
on page one.  The term is therefore NOT abandoned entirely for the run;
it is retried, and filled, on a later page within the scope. -/
theorem overlap_term_retried_counterexample :
    processTerms c3Page0 0 "ACME" ["A"] DefState.init = c3AfterA ∧
    stepTerm c3Page0 0 "ACME" "B" c3AfterA = (c3AfterA, false) ∧
    Rect.intersects ⟨86, 90, 116, 120⟩ ⟨95, 90, 315, 120⟩ = true ∧
    c3Run.2.fills.map (fun f => (f.term, f.page)) = [("A", 0), ("B", 1)] := by
  refine ⟨by decide, by decide, by decide, by decide⟩

/-- Witness for the amended C3 at a concrete input: the overlap skip on
page zero of the C3 scenario, through the amended theorem. -/
theorem overlap_skips_term_on_page_only_witness :
    stepTerm c3Page0 0 "ACME" "B" c3AfterA = (c3AfterA, false) :=
  overlap_skips_term_on_page_only c3Page0 0 "ACME" "B" c3AfterA
    ⟨96, 100, 106, 110⟩ (by decide) (by decide) (by decide)

/-! ## Claim C1 -/

/-- Claim C1: the fallback signature placement.  A keyword match exists
somewhere exactly when the accumulated sequence (pages in index order,
keywords in list order) is non-empty; in that case the placement is the
150 by 50 box anchored at the left edge of the last accumulated match and
offset 10 below its bottom edge, on that match's page; with no match
anywhere the placement is the fixed rectangle 50..200 horizontally and
height-150..height-100 vertically on the last page. -/
theorem fallback_signature_region (doc : List Page) (h : doc ≠ []) :
    ((∃ p ∈ doc, ∃ kw ∈ signature_keywords, p.search kw ≠ []) ↔
      signatureLocations doc ≠ []) ∧
    (∀ pn r kw, (signatureLocations doc).getLast? = some (pn, r, kw) →
      fallbackSigPlacement doc =
        some (pn, ⟨r.x0, r.y1 + 10, r.x0 + 150, r.y1 + 60⟩)) ∧
    (signatureLocations doc = [] →
      fallbackSigPlacement doc =
        some (doc.length - 1,
          ⟨50, (doc.getLast h).rect.height - 150, 200,
           (doc.getLast h).rect.height - 100⟩)) := by
  refine ⟨⟨?_, ?_⟩, ?_, ?_⟩
  · rintro ⟨p, hp, kw, hkw, hne⟩ hnil
    rw [signatureLocations, List.flatMap_eq_nil_iff] at hnil
    obtain ⟨pp, hpp, hpe⟩ : ∃ pp ∈ doc.enum, pp.2 = p := by
      rw [← List.enum_map_snd doc] at hp
      obtain ⟨pp, hpp, hpe⟩ := List.mem_map.mp hp
      exact ⟨pp, hpp, hpe⟩
    have h2 := hnil pp hpp
    rw [List.flatMap_eq_nil_iff] at h2
    have h3 := h2 kw hkw
    rw [List.map_eq_nil_iff] at h3
    rw [hpe] at h3
    exact hne h3
  · intro hne
    obtain ⟨loc, hloc⟩ := List.exists_mem_of_ne_nil _ hne
    rw [signatureLocations, List.mem_flatMap] at hloc
    obtain ⟨pp, hpp, hloc2⟩ := hloc
    rw [List.mem_flatMap] at hloc2
    obtain ⟨kw, hkw, hloc3⟩ := hloc2
    obtain ⟨inst, hinst, _⟩ := List.mem_map.mp hloc3
    refine ⟨pp.2, ?_, kw, hkw, List.ne_nil_of_mem hinst⟩
    rw [← List.enum_map_snd doc]
    exact List.mem_map.mpr ⟨pp, hpp, rfl⟩
  · intro pn r kw hlast
    unfold fallbackSigPlacement
    rw [List.getLast?_eq_getLast doc h, hlast]
  · intro hnil
    unfold fallbackSigPlacement
    rw [List.getLast?_eq_getLast doc h, hnil]
    rfl

/-- First page of the C1 witness document: one match of the keyword by:
and nothing else. -/
def w1Page0 : Page where
  rect := ⟨0, 0, 612, 792⟩
  widgets := []
  search := fun kw => if kw = "by:" then [⟨100, 700, 120, 710⟩] else []
  searchClip := fun _ _ => []

/-- Second page of the C1 witness document: no matches. -/
def w1Page1 : Page where
  rect := ⟨0, 0, 612, 792⟩
  widgets := []
  search := fun _ => []
  searchClip := fun _ _ => []

/-- Witness for C1 at a concrete input: the two-page document with a
single by: match gets the signature box directly below that match. -/
theorem fallback_signature_region_witness :
    fallbackSigPlacement [w1Page0, w1Page1] =
      some (0, ⟨100, 720, 250, 770⟩) :=
  (fallback_signature_region [w1Page0, w1Page1] (List.cons_ne_nil _ _)).2.1
    0 ⟨100, 700, 120, 710⟩ "by:" (by decide)

end AutoPdfSigner
